import Mathlib

/-!
# Resource synchronizer (`ray::sync::RaySync`, `src/ray/gcs/gcs_server/ray_sync.h`)

A shallow embedding of the ingestion side of `RaySync`: the two buffers
`resources_buffer_` (pending snapshots, one per node) and
`resources_buffer_proto_` (the outgoing batch), the two instantiations of
`Update`, `AddNode`, `RemoveNode`, and the callback that `Start` registers
with the ticker.  `Start` and `Stop` themselves act on other members (the
broadcast thread, its service, the ticker) and are embedded over those
members alone (`Lifecycle`).

Conventions.
* `absl::flat_hash_map<std::string, rpc::ResourcesData>` is a list of
  key/value pairs read in iteration order (`begin()` is the head).  The
  callback only ever takes an initial segment of the iteration order, so
  every statement about it is made for an arbitrary list, that is for
  whatever order the table happens to have.  A key that `operator[]` has to
  create is placed at the end of the list.
* The protobuf messages are declared outside this header; only the fields
  that the header reads or clears are named, the others travel in
  `unread_fields`.
* An iterator is the suffix of the list that starts at the element it
  points to; dereferencing `end()` has no defined result and makes the
  callback return `none`.
* The counter `cnt` (`size_t`) and the configured batch size are natural
  numbers: the counter is only incremented while it is below the size of
  the map, so it cannot wrap.
-/

namespace ray.sync

/-- Modelled from the spec: the protobuf map type `map<string, double>` used
by the resource messages (declared in the `.proto` files, which this header
only includes).  A quantity is kept as the bit pattern of its `double`; the
header never computes with it. -/
abbrev ResourceMap := List (String × Nat)

/-- Modelled from the spec: the protobuf message `rpc::ResourcesData` (the
per-node resource snapshot), whose declaration lives outside this header.
The fields are the ones `RaySync` touches through accessors: `node_id()`,
`should_global_gc()`, `resources_total_size()`,
`resources_available_changed()`, `resource_load_changed()` and the three
heavyweight fields that `Update` clears.  `resource_load_by_shape` is a
singular sub-message: it is either absent or holds its demand shapes. -/
structure ResourcesData where
  node_id : String := ""
  resources_available_changed : Bool := false
  resources_total : ResourceMap := []
  resource_load : ResourceMap := []
  resource_load_changed : Bool := false
  resource_load_by_shape : Option (List ResourceMap) := none
  should_global_gc : Bool := false
  resources_normal_task : ResourceMap := []
  unread_fields : List Nat := []
deriving DecidableEq, Repr

/-- Modelled from the spec: the protobuf message `rpc::NodeResourceChange`
(a discrete resource-change event), declared outside this header.  The
header never looks inside it. -/
structure NodeResourceChange where
  node_id : String := ""
  updated_resources : ResourceMap := []
  deleted_resources : List String := []
deriving DecidableEq, Repr

/-- Modelled from the spec: the protobuf message `rpc::GcsNodeInfo`, declared
outside this header; `RemoveNode` reads its `node_id()`. -/
structure GcsNodeInfo where
  node_id : String := ""
  unread_fields : List Nat := []
deriving DecidableEq, Repr

/-- Modelled from the spec: one element of `ResourceUsageBroadcastData.batch`,
a protobuf `oneof` that is filled through `mutable_change()` or
`mutable_data()`. -/
inductive ResourceUpdate where
  | change (c : NodeResourceChange)
  | data (d : ResourcesData)
deriving DecidableEq, Repr

/-- Modelled from the spec: the repeated field `batch` of
`rpc::ResourceUsageBroadcastData`. -/
abbrev ResourceUsageBroadcastData := List ResourceUpdate

/-- The type of `resources_buffer_`, in iteration order. -/
abbrev ResourcesBuffer := List (String × ResourcesData)

/-- The private data of `RaySync` that the ingestion operations use. -/
structure RaySync where
  resources_buffer_proto_ : ResourceUsageBroadcastData := []
  resources_buffer_ : ResourcesBuffer := []
deriving DecidableEq, Repr

/-- Calls made on the two collaborators owned by `RaySync`.  Each one is a
plain member call (`broadcaster_->...`, `poller_->...`) in the body of the
method or callback that makes it, so it runs in place, on the context of its
caller, before the next statement of that body. -/
inductive Call where
  | broadcaster_HandleNodeAdded (node_info : GcsNodeInfo)
  | poller_HandleNodeAdded (node_info : GcsNodeInfo)
  | broadcaster_HandleNodeRemoved (node_info : GcsNodeInfo)
  | poller_HandleNodeRemoved (node_info : GcsNodeInfo)
  | broadcaster_SendBroadcast (batch : ResourceUsageBroadcastData)
deriving DecidableEq, Repr

/-- The argument of the template `Update<T>`: the `static_assert` admits
exactly `rpc::NodeResourceChange` and `rpc::ResourcesData`. -/
inductive UpdateArg where
  | change (update : NodeResourceChange)
  | data (update : ResourcesData)
deriving DecidableEq, Repr

/-! ## `absl::flat_hash_map` operations used by the header -/

/-- The map lookup `find(key)`: the value stored under `key`, if any. -/
def ResourcesBuffer.find (m : ResourcesBuffer) (key : String) : Option ResourcesData :=
  match m with
  | [] => none
  | (k, v) :: rest => if k = key then some v else ResourcesBuffer.find rest key

/-- The pair `auto& orig = m[key]; orig.Swap(&update);`: `operator[]` yields
the slot stored under `key`, creating it when the key is new, and the swap
leaves `update` in that slot. -/
def ResourcesBuffer.index_swap (m : ResourcesBuffer) (key : String) (update : ResourcesData) :
    ResourcesBuffer :=
  match m with
  | [] => [(key, update)]
  | (k, v) :: rest =>
    if k = key then (k, update) :: rest
    else (k, v) :: ResourcesBuffer.index_swap rest key update

/-- The call `m.erase(key)`: the entry stored under `key` is removed. -/
def ResourcesBuffer.erase (m : ResourcesBuffer) (key : String) : ResourcesBuffer :=
  m.filter (fun e => !decide (e.1 = key))

/-! ## `RaySync::Update` -/

/-- The condition of the `if` in the `rpc::ResourcesData` branch of `Update`. -/
def accepted (update : ResourcesData) : Bool :=
  update.should_global_gc ||
  decide (update.resources_total.length > 0) ||
  update.resources_available_changed ||
  update.resource_load_changed

/-- The three `clear_*` calls of `Update`. -/
def clear_heavy (update : ResourcesData) : ResourcesData :=
  { update with
    resource_load := []
    resource_load_by_shape := none
    resources_normal_task := [] }

/-- The template `RaySync::Update`, both instantiations. -/
def RaySync.Update (self : RaySync) (update : UpdateArg) : RaySync :=
  match update with
  | .change c =>
    { self with resources_buffer_proto_ := self.resources_buffer_proto_ ++ [.change c] }
  | .data d =>
    if accepted d then
      let d1 := clear_heavy d
      { self with resources_buffer_ := self.resources_buffer_.index_swap d1.node_id d1 }
    else self

/-! ## `RaySync::AddNode`, `RaySync::RemoveNode` -/

/-- The method `RaySync::AddNode`: two forwarded calls, no local change. -/
def RaySync.AddNode (self : RaySync) (node_info : GcsNodeInfo) : RaySync × List Call :=
  (self, [.broadcaster_HandleNodeAdded node_info, .poller_HandleNodeAdded node_info])

/-- The method `RaySync::RemoveNode`: two forwarded calls, then the pending
snapshot of the node is erased. -/
def RaySync.RemoveNode (self : RaySync) (node_info : GcsNodeInfo) : RaySync × List Call :=
  ({ self with resources_buffer_ := self.resources_buffer_.erase node_info.node_id },
   [.broadcaster_HandleNodeRemoved node_info, .poller_HandleNodeRemoved node_info])

/-! ## The periodic callback registered by `RaySync::Start` -/

/-- The `for` loop of the callback.  `size` is `resources_buffer_.size()`,
which the loop does not change (the erase comes after it); `cnt` is the loop
counter, `ptr` the iterator and `batch` the outgoing batch.  Each round
appends a fresh `data` element and swaps the snapshot under `ptr` into it.
The result is the batch and the iterator at loop exit. -/
def drain_loop (max_batch size : Nat) (cnt : Nat) (ptr : ResourcesBuffer)
    (batch : ResourceUsageBroadcastData) :
    Option (ResourceUsageBroadcastData × ResourcesBuffer) :=
  match ptr with
  | [] => if cnt < max_batch ∧ cnt < size then none else some (batch, [])
  | e :: rest =>
    if cnt < max_batch ∧ cnt < size then
      drain_loop max_batch size (cnt + 1) rest (batch ++ [.data e.2])
    else some (batch, e :: rest)

/-- The callback that `Start` hands to `ticker_.RunFnPeriodically`.
`max_batch` is `RayConfig::instance().resource_broadcast_batch_size()`.
After the loop, `erase(beg, ptr)` leaves the entries from `ptr` on, the batch
goes to `SendBroadcast`, and `Clear()` empties `resources_buffer_proto_`. -/
def RaySync.periodic (max_batch : Nat) (self : RaySync) : Option (RaySync × List Call) :=
  match drain_loop max_batch self.resources_buffer_.length
      self.resources_buffer_proto_.length self.resources_buffer_ self.resources_buffer_proto_ with
  | none => none
  | some (batch, ptr) =>
    some ({ self with resources_buffer_ := ptr, resources_buffer_proto_ := [] },
          [.broadcaster_SendBroadcast batch])

/-! ## Sequences of operations -/

/-- One operation on the ingestion context. -/
inductive Op where
  | Update (update : UpdateArg)
  | AddNode (node_info : GcsNodeInfo)
  | RemoveNode (node_info : GcsNodeInfo)
  | tick
deriving DecidableEq, Repr

/-- Runs one operation; the result is the next state and the collaborator
calls the operation made. -/
def RaySync.step (max_batch : Nat) (self : RaySync) (op : Op) : Option (RaySync × List Call) :=
  match op with
  | .Update u => some (self.Update u, [])
  | .AddNode n => some (self.AddNode n)
  | .RemoveNode n => some (self.RemoveNode n)
  | .tick => self.periodic max_batch

/-- Runs a sequence of operations from `self`, collecting the calls in order. -/
def RaySync.run (max_batch : Nat) (self : RaySync) (ops : List Op) : Option (RaySync × List Call) :=
  match ops with
  | [] => some (self, [])
  | op :: rest =>
    match self.step max_batch op with
    | none => none
    | some (s1, calls1) =>
      match RaySync.run max_batch s1 rest with
      | none => none
      | some (s2, calls2) => some (s2, calls1 ++ calls2)

/-- The batches handed to `SendBroadcast` among a list of calls, in order. -/
def sent_batches (calls : List Call) : List ResourceUsageBroadcastData :=
  calls.filterMap (fun c =>
    match c with
    | .broadcaster_SendBroadcast b => some b
    | _ => none)

/-- The state of a freshly constructed `RaySync`: both buffers empty. -/
def RaySync.init : RaySync := {}

/-- The data element that the loop adds to the batch for a map entry. -/
def as_data (e : String × ResourcesData) : ResourceUpdate := .data e.2

/-- The number of rounds of the loop of the callback, read off its header:
the counter starts at the batch size and runs while it is below both
`max_batch` and the size of the map. -/
def RaySync.drain_count (max_batch : Nat) (self : RaySync) : Nat :=
  min max_batch self.resources_buffer_.length - self.resources_buffer_proto_.length

/-- The heavyweight fields of a snapshot are all cleared. -/
def stripped (d : ResourcesData) : Prop :=
  d.resource_load = [] ∧ d.resource_load_by_shape = none ∧ d.resources_normal_task = []

/-- A batch that holds change events only. -/
def only_changes (batch : ResourceUsageBroadcastData) : Prop :=
  ∀ d, ResourceUpdate.data d ∉ batch

/-- The shape of the buffers between two operations: the batch holds change
events only, every map entry sits under the node id of its snapshot, and no
key occurs twice. -/
def RaySync.well_formed (self : RaySync) : Prop :=
  only_changes self.resources_buffer_proto_ ∧
  (∀ e ∈ self.resources_buffer_, e.1 = e.2.node_id) ∧
  (self.resources_buffer_.map Prod.fst).Nodup

/-- The number of `Update(change)` calls after the last tick of `ops`, on
top of `acc` calls before `ops`. -/
def events_since_tick (acc : Nat) (ops : List Op) : Nat :=
  match ops with
  | [] => acc
  | .tick :: rest => events_since_tick 0 rest
  | .Update (.change _) :: rest => events_since_tick (acc + 1) rest
  | _ :: rest => events_since_tick acc rest

/-- The node id carried by the argument of `Update`. -/
def UpdateArg.node_id (update : UpdateArg) : String :=
  match update with
  | .change c => c.node_id
  | .data d => d.node_id

/-- The node ids of the data entries of a batch, in order. -/
def data_node_ids (batch : ResourceUsageBroadcastData) : List String :=
  batch.filterMap (fun u =>
    match u with
    | .data d => some d.node_id
    | .change _ => none)

/-- The number of rounds of the `for` loop of the callback: the recursion of
`drain_loop` with a count of the rounds in place of the batch.  A round that
would dereference `end()` is not counted. -/
def drain_loop_rounds (max_batch size : Nat) (cnt : Nat) (ptr : ResourcesBuffer) : Nat :=
  match ptr with
  | [] => 0
  | _ :: rest =>
    if cnt < max_batch ∧ cnt < size then
      drain_loop_rounds max_batch size (cnt + 1) rest + 1
    else 0

/-! ## `RaySync::Start`, `RaySync::Stop` -/

/-- The member `broadcast_thread_` (`std::unique_ptr<std::thread>`): a null
pointer, a thread that is `joinable()` (spawned and not joined), or a thread
that has been joined. -/
inductive BroadcastThread where
  | absent
  | running
  | joined
deriving DecidableEq, Repr

/-- The members that `Start` and `Stop` act on: the broadcast thread, whether
`broadcast_service_` has been stopped, and the number of callbacks handed to
`ticker_`. -/
structure Lifecycle where
  broadcast_thread_ : BroadcastThread := .absent
  broadcast_service_stopped : Bool := false
  ticker_callbacks : Nat := 0
deriving DecidableEq, Repr

/-- What `Start` and `Stop` do besides changing members. -/
inductive LifecycleCall where
  | poller_Start
  | poller_Stop
  | thread_spawn
  | ticker_RunFnPeriodically
  | broadcast_service_stop
  | broadcast_thread_join
deriving DecidableEq, Repr

/-- The method `RaySync::Start`.  Assigning the new thread to
`broadcast_thread_` destroys the `std::thread` held before; destroying a
joinable thread ends the process (`std::terminate`), which is the result
`none`. -/
def Lifecycle.Start (self : Lifecycle) : Option (Lifecycle × List LifecycleCall) :=
  match self.broadcast_thread_ with
  | .running => none
  | _ =>
    some ({ self with
            broadcast_thread_ := .running
            ticker_callbacks := self.ticker_callbacks + 1 },
          [.poller_Start, .thread_spawn, .ticker_RunFnPeriodically])

/-- The method `RaySync::Stop`: the poller is stopped; when
`broadcast_thread_` is not null the service is stopped, and the thread is
joined when it is joinable. -/
def Lifecycle.Stop (self : Lifecycle) : Lifecycle × List LifecycleCall :=
  match self.broadcast_thread_ with
  | .absent => (self, [.poller_Stop])
  | .running =>
    ({ self with broadcast_service_stopped := true, broadcast_thread_ := .joined },
     [.poller_Stop, .broadcast_service_stop, .broadcast_thread_join])
  | .joined =>
    ({ self with broadcast_service_stopped := true },
     [.poller_Stop, .broadcast_service_stop])

/-- The lifecycle members of a freshly constructed `RaySync`. -/
def Lifecycle.init : Lifecycle := {}

/-! ## Concrete inputs -/

/-- A snapshot of node `A` that asks for a global GC and carries load data. -/
def snapshot_A : ResourcesData :=
  { node_id := "A", should_global_gc := true, resource_load := [("CPU", 1)],
    resource_load_by_shape := some [[("CPU", 1)]], resources_normal_task := [("CPU", 2)] }

/-- A later snapshot of node `A`, accepted for its total resources. -/
def snapshot_A2 : ResourcesData :=
  { node_id := "A", resources_total := [("CPU", 4)], resource_load := [("GPU", 1)],
    unread_fields := [7] }

/-- A snapshot of node `B`. -/
def snapshot_B : ResourcesData :=
  { node_id := "B", resources_available_changed := true }

/-- A snapshot of node `C`. -/
def snapshot_C : ResourcesData :=
  { node_id := "C", resource_load_changed := true, resource_load := [("CPU", 8)] }

/-- A snapshot of node `A` that the filter of `Update` turns away. -/
def snapshot_idle : ResourcesData :=
  { node_id := "A", resource_load := [("CPU", 1)], unread_fields := [1] }

/-- A change event of node `A`. -/
def event_A : NodeResourceChange :=
  { node_id := "A", updated_resources := [("CPU", 3)] }

/-- The registry record of node `A`. -/
def node_A : GcsNodeInfo := { node_id := "A" }

/-! ## Lemmas on the map operations -/

theorem find_index_swap (m : ResourcesBuffer) (key : String) (v : ResourcesData) :
    (m.index_swap key v).find key = some v := by
  induction m with
  | nil => simp [ResourcesBuffer.index_swap, ResourcesBuffer.find]
  | cons e rest ih =>
    obtain ⟨k, w⟩ := e
    by_cases h : k = key
    · simp [ResourcesBuffer.index_swap, ResourcesBuffer.find, h]
    · simp [ResourcesBuffer.index_swap, ResourcesBuffer.find, h, ih]

theorem index_swap_index_swap (m : ResourcesBuffer) (key : String) (v w : ResourcesData) :
    (m.index_swap key v).index_swap key w = m.index_swap key w := by
  induction m with
  | nil => simp [ResourcesBuffer.index_swap]
  | cons e rest ih =>
    obtain ⟨k, u⟩ := e
    by_cases h : k = key
    · simp [ResourcesBuffer.index_swap, h]
    · simp [ResourcesBuffer.index_swap, h, ih]

theorem mem_index_swap (m : ResourcesBuffer) (key : String) (v : ResourcesData)
    (e : String × ResourcesData) (he : e ∈ m.index_swap key v) : e ∈ m ∨ e = (key, v) := by
  induction m with
  | nil => simpa [ResourcesBuffer.index_swap] using he
  | cons x rest ih =>
    obtain ⟨k, u⟩ := x
    by_cases h : k = key
    · simp only [ResourcesBuffer.index_swap, h, if_true, List.mem_cons] at he
      rcases he with he | he
      · right; exact he
      · left; exact List.mem_cons_of_mem _ he
    · simp only [ResourcesBuffer.index_swap, h, if_false, List.mem_cons] at he
      rcases he with he | he
      · left; rw [he]; exact List.mem_cons_self _ _
      · rcases ih he with h1 | h1
        · left; exact List.mem_cons_of_mem _ h1
        · right; exact h1

theorem mem_erase (m : ResourcesBuffer) (key : String) (e : String × ResourcesData) :
    e ∈ m.erase key ↔ e ∈ m ∧ e.1 ≠ key := by
  simp [ResourcesBuffer.erase, List.mem_filter]

theorem find_eq_none (m : ResourcesBuffer) (key : String) (h : ∀ e ∈ m, e.1 ≠ key) :
    m.find key = none := by
  induction m with
  | nil => rfl
  | cons x rest ih =>
    obtain ⟨k, u⟩ := x
    have hk : k ≠ key := h (k, u) (List.mem_cons_self _ _)
    simp only [ResourcesBuffer.find, hk, if_false]
    exact ih (fun e he => h e (List.mem_cons_of_mem _ he))

/-! ## The loop and the callback in closed form -/

theorem drain_loop_eq (max_batch size cnt : Nat) (ptr : ResourcesBuffer)
    (batch : ResourceUsageBroadcastData) (h : size ≤ cnt + ptr.length) :
    drain_loop max_batch size cnt ptr batch =
      some (batch ++ (ptr.take (min max_batch size - cnt)).map as_data,
            ptr.drop (min max_batch size - cnt)) := by
  induction ptr generalizing cnt batch with
  | nil =>
    have hc : ¬ (cnt < max_batch ∧ cnt < size) := by
      simp only [List.length_nil, Nat.add_zero] at h
      omega
    simp [drain_loop, hc]
  | cons e rest ih =>
    by_cases hc : cnt < max_batch ∧ cnt < size
    · have h1 : size ≤ cnt + 1 + rest.length := by
        simp only [List.length_cons] at h
        omega
      have h2 : min max_batch size - cnt = (min max_batch size - (cnt + 1)) + 1 := by omega
      rw [drain_loop, if_pos hc, ih (cnt + 1) _ h1, h2]
      simp [as_data]
    · have h2 : min max_batch size - cnt = 0 := by omega
      rw [drain_loop, if_neg hc, h2]
      simp

theorem periodic_eq (max_batch : Nat) (self : RaySync) :
    self.periodic max_batch =
      some ({ resources_buffer_proto_ := [],
              resources_buffer_ := self.resources_buffer_.drop (self.drain_count max_batch) },
            [.broadcaster_SendBroadcast
              (self.resources_buffer_proto_ ++
                (self.resources_buffer_.take (self.drain_count max_batch)).map as_data)]) := by
  have h := drain_loop_eq max_batch self.resources_buffer_.length
    self.resources_buffer_proto_.length self.resources_buffer_ self.resources_buffer_proto_
    (Nat.le_add_left _ _)
  simp only [RaySync.periodic, h, RaySync.drain_count]


/-! ## Lemmas on sequences of operations -/

theorem sent_batches_append (a b : List Call) :
    sent_batches (a ++ b) = sent_batches a ++ sent_batches b := by
  simp [sent_batches, List.filterMap_append]

theorem run_cons_of_step (k : Nat) (self s1 s2 : RaySync) (op : Op) (rest : List Op)
    (c1 c2 : List Call) (h1 : self.step k op = some (s1, c1))
    (h2 : s1.run k rest = some (s2, c2)) :
    self.run k (op :: rest) = some (s2, c1 ++ c2) := by
  simp only [RaySync.run, h1, h2]

theorem run_append (k : Nat) (a b : List Op) (self s1 s2 : RaySync) (c1 c2 : List Call)
    (h1 : self.run k a = some (s1, c1)) (h2 : s1.run k b = some (s2, c2)) :
    self.run k (a ++ b) = some (s2, c1 ++ c2) := by
  induction a generalizing self c1 with
  | nil =>
    simp only [RaySync.run, Option.some.injEq, Prod.mk.injEq] at h1
    obtain ⟨rfl, rfl⟩ := h1
    simpa using h2
  | cons op rest ih =>
    simp only [RaySync.run] at h1
    cases hs : self.step k op with
    | none => simp [hs] at h1
    | some r =>
      obtain ⟨s', c'⟩ := r
      simp only [hs] at h1
      cases hr : s'.run k rest with
      | none => simp [hr] at h1
      | some r2 =>
        obtain ⟨s'', c''⟩ := r2
        simp only [hr, Option.some.injEq, Prod.mk.injEq] at h1
        obtain ⟨rfl, rfl⟩ := h1
        have := ih s' c'' hr
        rw [List.cons_append, run_cons_of_step k self s' s2 op (rest ++ b) c' (c'' ++ c2) hs this,
          List.append_assoc]

theorem run_entries (P : String × ResourcesData → Prop) (k : Nat) (ops : List Op) (self : RaySync)
    (hops : ∀ d, Op.Update (.data d) ∈ ops → accepted d = true → P (d.node_id, clear_heavy d))
    (hbatch : only_changes self.resources_buffer_proto_)
    (hbuf : ∀ e ∈ self.resources_buffer_, P e) :
    ∃ st calls, self.run k ops = some (st, calls) ∧
      only_changes st.resources_buffer_proto_ ∧
      (∀ e ∈ st.resources_buffer_, P e) ∧
      st.resources_buffer_proto_.length =
        events_since_tick self.resources_buffer_proto_.length ops ∧
      ∀ b ∈ sent_batches calls, ∀ d, ResourceUpdate.data d ∈ b → ∃ key, P (key, d) := by
  induction ops generalizing self with
  | nil =>
    refine ⟨self, [], rfl, hbatch, hbuf, rfl, ?_⟩
    intro b hb
    simp [sent_batches] at hb
  | cons op rest ih =>
    have hrest : ∀ d, Op.Update (.data d) ∈ rest → accepted d = true →
        P (d.node_id, clear_heavy d) :=
      fun d hd => hops d (List.mem_cons_of_mem _ hd)
    cases op with
    | Update u =>
      cases u with
      | change c =>
        have hb1 : only_changes (self.Update (.change c)).resources_buffer_proto_ := by
          intro d hd
          simp only [RaySync.Update, List.mem_append, List.mem_singleton] at hd
          rcases hd with hd | hd
          · exact hbatch d hd
          · cases hd
        obtain ⟨st, calls, hrun, h1, h2, h3, h4⟩ := ih (self.Update (.change c)) hrest hb1 hbuf
        refine ⟨st, [] ++ calls, run_cons_of_step k self _ st _ rest [] calls rfl hrun,
          h1, h2, ?_, ?_⟩
        · rw [h3]; simp [RaySync.Update, events_since_tick]
        · simpa using h4
      | data d =>
        have hb1 : ∀ e ∈ (self.Update (.data d)).resources_buffer_, P e := by
          intro e he
          by_cases hacc : accepted d = true
          · simp only [RaySync.Update, hacc, if_true] at he
            rcases mem_index_swap _ _ _ _ he with h | h
            · exact hbuf e h
            · rw [h]; exact hops d (List.mem_cons_self _ _) hacc
          · simp only [RaySync.Update, hacc] at he
            exact hbuf e he
        have hb2 : (self.Update (.data d)).resources_buffer_proto_ =
            self.resources_buffer_proto_ := by
          by_cases hacc : accepted d = true <;> simp [RaySync.Update, hacc]
        obtain ⟨st, calls, hrun, h1, h2, h3, h4⟩ :=
          ih (self.Update (.data d)) hrest (by rw [hb2]; exact hbatch) hb1
        refine ⟨st, [] ++ calls, run_cons_of_step k self _ st _ rest [] calls rfl hrun,
          h1, h2, ?_, ?_⟩
        · rw [h3, hb2]; simp [events_since_tick]
        · simpa using h4
    | AddNode n =>
      obtain ⟨st, calls, hrun, h1, h2, h3, h4⟩ := ih self hrest hbatch hbuf
      refine ⟨st, _ ++ calls, run_cons_of_step k self self st _ rest _ calls rfl hrun,
        h1, h2, ?_, ?_⟩
      · rw [h3]; simp [events_since_tick]
      · simpa [sent_batches] using h4
    | RemoveNode n =>
      have hb1 : ∀ e ∈ (self.RemoveNode n).1.resources_buffer_, P e := by
        intro e he
        simp only [RaySync.RemoveNode, mem_erase] at he
        exact hbuf e he.1
      obtain ⟨st, calls, hrun, h1, h2, h3, h4⟩ := ih (self.RemoveNode n).1 hrest hbatch hb1
      refine ⟨st, _ ++ calls, run_cons_of_step k self _ st _ rest _ calls rfl hrun,
        h1, h2, ?_, ?_⟩
      · rw [h3]; simp [RaySync.RemoveNode, events_since_tick]
      · simpa [sent_batches] using h4
    | tick =>
      have hstep := periodic_eq k self
      have hb0 : only_changes ([] : ResourceUsageBroadcastData) := by
        intro d hd; cases hd
      have hb1 : ∀ e ∈ self.resources_buffer_.drop (self.drain_count k), P e :=
        fun e he => hbuf e (List.mem_of_mem_drop he)
      obtain ⟨st, calls, hrun, h1, h2, h3, h4⟩ :=
        ih { resources_buffer_proto_ := [],
             resources_buffer_ := self.resources_buffer_.drop (self.drain_count k) }
          hrest hb0 hb1
      refine ⟨st, _ ++ calls, run_cons_of_step k self _ st _ rest _ calls hstep hrun,
        h1, h2, ?_, ?_⟩
      · rw [h3]; simp [events_since_tick]
      · intro b hb d hd
        rw [sent_batches_append] at hb
        rcases List.mem_append.1 hb with hb | hb
        · simp only [sent_batches, List.filterMap_cons, List.filterMap_nil,
            List.mem_singleton] at hb
          rw [hb] at hd
          rcases List.mem_append.1 hd with hd | hd
          · exact absurd hd (hbatch d)
          · obtain ⟨e, he, hed⟩ := List.mem_map.1 hd
            simp only [as_data, ResourceUpdate.data.injEq] at hed
            exact ⟨e.1, by rw [← hed]; exact hbuf e (List.mem_of_mem_take he)⟩
        · exact h4 b hb d hd
theorem take_min_length (k : Nat) (l : ResourcesBuffer) :
    l.take (min k l.length) = l.take k := by
  rcases Nat.le_total k l.length with h | h
  · rw [Nat.min_eq_left h]
  · rw [Nat.min_eq_right h, List.take_of_length_le h, List.take_of_length_le (Nat.le_refl _)]

theorem drop_min_length (k : Nat) (l : ResourcesBuffer) :
    l.drop (min k l.length) = l.drop k := by
  rcases Nat.le_total k l.length with h | h
  · rw [Nat.min_eq_left h]
  · rw [Nat.min_eq_right h, List.drop_eq_nil_of_le h, List.drop_eq_nil_of_le (Nat.le_refl _)]

theorem run_ticks (k m : Nat) (self : RaySync) (hempty : self.resources_buffer_proto_ = []) :
    ∃ st calls, self.run k (List.replicate m Op.tick) = some (st, calls) ∧
      st.resources_buffer_proto_ = [] ∧
      st.resources_buffer_ = self.resources_buffer_.drop (m * k) ∧
      (sent_batches calls).flatten = (self.resources_buffer_.take (m * k)).map as_data ∧
      (sent_batches calls).length = m := by
  induction m generalizing self with
  | zero => exact ⟨self, [], rfl, hempty, by simp, by simp [sent_batches], by simp [sent_batches]⟩
  | succ m ih =>
    have hstep := periodic_eq k self
    have hd : self.drain_count k = min k self.resources_buffer_.length := by
      simp [RaySync.drain_count, hempty]
    rw [hd, take_min_length, drop_min_length, hempty, List.nil_append] at hstep
    obtain ⟨st, calls, hrun, h1, h2, h3, h4⟩ :=
      ih { resources_buffer_proto_ := [], resources_buffer_ := self.resources_buffer_.drop k } rfl
    refine ⟨st, _ ++ calls,
      run_cons_of_step k self _ st Op.tick (List.replicate m Op.tick) _ calls hstep hrun,
      h1, ?_, ?_, ?_⟩
    · rw [h2, List.drop_drop, Nat.succ_mul, Nat.add_comm]
    · rw [sent_batches_append, List.flatten_append, h3]
      have hk : (m + 1) * k = k + m * k := by rw [Nat.succ_mul, Nat.add_comm]
      rw [hk, List.take_add, List.map_append]
      simp [sent_batches]
    · rw [sent_batches_append, List.length_append, h4]
      simp [sent_batches, Nat.add_comm]

theorem le_ceil_mul (n k : Nat) (hk : 1 ≤ k) : n ≤ (n + k - 1) / k * k := by
  have h := Nat.lt_mul_div_succ (n + k - 1) hk
  rw [Nat.mul_add, Nat.mul_one, Nat.mul_comm] at h
  omega

/-! ## Ingestion: `Update` -/

theorem find_index_swap_of_ne (m : ResourcesBuffer) (key other : String) (v : ResourcesData)
    (h : other ≠ key) : (m.index_swap key v).find other = m.find other := by
  induction m with
  | nil =>
    have h1 : ¬ key = other := fun e => h e.symm
    simp [ResourcesBuffer.index_swap, ResourcesBuffer.find, h1]
  | cons e rest ih =>
    obtain ⟨k, w⟩ := e
    by_cases hk : k = key
    · subst hk
      have h1 : ¬ k = other := fun e => h e.symm
      simp [ResourcesBuffer.index_swap, ResourcesBuffer.find, h1]
    · by_cases ho : k = other
      · subst ho
        simp [ResourcesBuffer.index_swap, ResourcesBuffer.find, hk]
      · simp [ResourcesBuffer.index_swap, ResourcesBuffer.find, hk, ho, ih]

/-- Claim C1 (coalescing): for every state and every two snapshots `s1`, `s2`
of the same node `N` where `s2` passes the filter, `Update(s1)` followed by
`Update(s2)` gives the very state that `Update(s2)` alone gives.  The entry
stored under `N` is written out field by field: `resource_load`,
`resource_load_by_shape` and `resources_normal_task` are empty and every
other field is the one of `s2`, so nothing of `s1` is in it.  The entries of
the other nodes and the outgoing batch are as they were before the two
calls, and every later run, hence every later batch, is the one that follows
`Update(s2)` alone. -/
theorem Update_coalesces (self : RaySync) (s1 s2 : ResourcesData)
    (hnode : s1.node_id = s2.node_id) (hacc : accepted s2 = true) :
    (self.Update (.data s1)).Update (.data s2) = self.Update (.data s2) ∧
    ((self.Update (.data s1)).Update (.data s2)).resources_buffer_.find s2.node_id =
      some { node_id := s2.node_id
             resources_available_changed := s2.resources_available_changed
             resources_total := s2.resources_total
             resource_load := []
             resource_load_changed := s2.resource_load_changed
             resource_load_by_shape := none
             should_global_gc := s2.should_global_gc
             resources_normal_task := []
             unread_fields := s2.unread_fields } ∧
    (∀ other : String, other ≠ s2.node_id →
      ((self.Update (.data s1)).Update (.data s2)).resources_buffer_.find other =
        self.resources_buffer_.find other) ∧
    ((self.Update (.data s1)).Update (.data s2)).resources_buffer_proto_ =
      self.resources_buffer_proto_ ∧
    ∀ (k : Nat) (ops : List Op),
      ((self.Update (.data s1)).Update (.data s2)).run k ops =
        (self.Update (.data s2)).run k ops := by
  have hkey : (clear_heavy s1).node_id = (clear_heavy s2).node_id := hnode
  have heq : (self.Update (.data s1)).Update (.data s2) = self.Update (.data s2) := by
    by_cases h1 : accepted s1 = true
    · simp only [RaySync.Update, h1, hacc, if_true, hkey, index_swap_index_swap]
    · simp only [RaySync.Update, h1, hacc, if_true]
      rfl
  refine ⟨heq, ?_, ?_, ?_, fun k ops => by rw [heq]⟩
  · rw [heq]
    simp only [RaySync.Update, hacc, if_true]
    exact find_index_swap _ _ _
  · intro other hother
    rw [heq]
    simp only [RaySync.Update, hacc, if_true]
    exact find_index_swap_of_ne _ _ _ _ hother
  · rw [heq]
    simp only [RaySync.Update, hacc, if_true]

/-- Claim C1 at a concrete input: node `B` has a snapshot pending, then two
snapshots of node `A` arrive.  What is stored under `A` is the second one
without its `resource_load`; the entry of `B` is the one it was. -/
theorem Update_coalesces_witness :
    snapshot_A.node_id = snapshot_A2.node_id ∧ accepted snapshot_A2 = true ∧
    ((((RaySync.init.Update (.data snapshot_B)).Update (.data snapshot_A)).Update
          (.data snapshot_A2) =
        (RaySync.init.Update (.data snapshot_B)).Update (.data snapshot_A2)) ∧
      (((RaySync.init.Update (.data snapshot_B)).Update (.data snapshot_A)).Update
          (.data snapshot_A2)).resources_buffer_.find "A" =
        some { node_id := "A"
               resources_available_changed := false
               resources_total := [("CPU", 4)]
               resource_load := []
               resource_load_changed := false
               resource_load_by_shape := none
               should_global_gc := false
               resources_normal_task := []
               unread_fields := [7] } ∧
      (∀ other : String, other ≠ "A" →
        (((RaySync.init.Update (.data snapshot_B)).Update (.data snapshot_A)).Update
            (.data snapshot_A2)).resources_buffer_.find other =
          (RaySync.init.Update (.data snapshot_B)).resources_buffer_.find other) ∧
      (((RaySync.init.Update (.data snapshot_B)).Update (.data snapshot_A)).Update
          (.data snapshot_A2)).resources_buffer_proto_ =
        (RaySync.init.Update (.data snapshot_B)).resources_buffer_proto_ ∧
      ∀ (k : Nat) (ops : List Op),
        (((RaySync.init.Update (.data snapshot_B)).Update (.data snapshot_A)).Update
            (.data snapshot_A2)).run k ops =
          ((RaySync.init.Update (.data snapshot_B)).Update (.data snapshot_A2)).run k ops) :=
  ⟨by decide, by decide,
    Update_coalesces (RaySync.init.Update (.data snapshot_B)) snapshot_A snapshot_A2
      (by decide) (by decide)⟩

/-- Claim C2 (filter): a snapshot that does not ask for a global GC, has no
total resources and has both change flags off leaves the whole state as it
was, pending snapshots and outgoing batch alike; every later run therefore
behaves as if the call had not been made. -/
theorem Update_filtered_is_noop (self : RaySync) (d : ResourcesData)
    (hgc : d.should_global_gc = false) (htotal : d.resources_total = [])
    (havail : d.resources_available_changed = false)
    (hload : d.resource_load_changed = false) :
    self.Update (.data d) = self ∧
    ∀ (k : Nat) (ops : List Op), (self.Update (.data d)).run k ops = self.run k ops := by
  have hacc : accepted d = false := by
    simp [accepted, hgc, htotal, havail, hload]
  have heq : self.Update (.data d) = self := by
    simp [RaySync.Update, hacc]
  exact ⟨heq, fun k ops => by rw [heq]⟩

/-- Claim C2 at a concrete input: an idle snapshot of node `A` while an
earlier snapshot of `A` is pending. -/
theorem Update_filtered_is_noop_witness :
    snapshot_idle.should_global_gc = false ∧ snapshot_idle.resources_total = [] ∧
    snapshot_idle.resources_available_changed = false ∧
    snapshot_idle.resource_load_changed = false ∧
    ((RaySync.init.Update (.data snapshot_A)).Update (.data snapshot_idle) =
        RaySync.init.Update (.data snapshot_A) ∧
      ∀ (k : Nat) (ops : List Op),
        ((RaySync.init.Update (.data snapshot_A)).Update (.data snapshot_idle)).run k ops =
          (RaySync.init.Update (.data snapshot_A)).run k ops) :=
  ⟨by decide, by decide, by decide, by decide,
    Update_filtered_is_noop (RaySync.init.Update (.data snapshot_A)) snapshot_idle
      (by decide) (by decide) (by decide) (by decide)⟩

/-- Claim C9 (events are not coalesced): `Update(e)` on a change event puts
exactly one change entry holding `e` at the end of the outgoing batch, keeps
the earlier entries and the pending snapshots, and applies no filter; two
calls with the same event give two entries, the batch being longer by 2. -/
theorem Update_change_appends (self : RaySync) (e : NodeResourceChange) :
    (self.Update (.change e)).resources_buffer_proto_ =
      self.resources_buffer_proto_ ++ [.change e] ∧
    (self.Update (.change e)).resources_buffer_ = self.resources_buffer_ ∧
    ((self.Update (.change e)).Update (.change e)).resources_buffer_proto_ =
      self.resources_buffer_proto_ ++ [.change e, .change e] ∧
    ((self.Update (.change e)).Update (.change e)).resources_buffer_proto_.length =
      self.resources_buffer_proto_.length + 2 ∧
    ((self.Update (.change e)).Update (.change e)).resources_buffer_ =
      self.resources_buffer_ := by
  simp [RaySync.Update]

/-! ## The periodic callback -/

/-- Claim C4 (cap on the drain): with `k` the batch limit and `q` entries
already in the batch, one tick moves an initial run `moved` of the pending
snapshots into the batch, `moved` has at most `k - q` elements (none when
`k ≤ q`), and the snapshots not moved are what the map holds afterwards. -/
theorem periodic_drain_cap (k : Nat) (self : RaySync) :
    ∃ moved kept st batch,
      self.resources_buffer_ = moved ++ kept ∧
      self.periodic k = some (st, [.broadcaster_SendBroadcast batch]) ∧
      batch = self.resources_buffer_proto_ ++ moved.map as_data ∧
      st.resources_buffer_ = kept ∧
      moved.length ≤ k - self.resources_buffer_proto_.length ∧
      (k ≤ self.resources_buffer_proto_.length → moved = []) := by
  refine ⟨self.resources_buffer_.take (self.drain_count k),
    self.resources_buffer_.drop (self.drain_count k), _, _,
    (List.take_append_drop _ _).symm, periodic_eq k self, rfl, rfl, ?_, ?_⟩
  · rw [List.length_take, RaySync.drain_count]
    omega
  · intro h
    have h0 : self.drain_count k = 0 := by
      rw [RaySync.drain_count]
      omega
    rw [h0, List.take_zero]

/-- Claim C10 (flush content and reset): the batch that a tick hands to
`SendBroadcast` is the batch as it stood before the tick, in its order,
followed by the snapshots the tick takes out of the map, as data entries;
after the tick the outgoing batch is empty. -/
theorem periodic_flush (k : Nat) (self : RaySync) :
    ∃ drained st,
      self.periodic k =
        some (st, [.broadcaster_SendBroadcast
          (self.resources_buffer_proto_ ++ drained.map (fun e => ResourceUpdate.data e.2))]) ∧
      self.resources_buffer_ = drained ++ st.resources_buffer_ ∧
      st.resources_buffer_proto_ = [] :=
  ⟨self.resources_buffer_.take (self.drain_count k), _, periodic_eq k self,
    (List.take_append_drop _ _).symm, rfl⟩

/-- Claim C5, evaluated at the failing input: with batch limit 2, one change
event queued and one accepted snapshot pending, there is room for one
snapshot, yet the tick drains none: the batch sent holds the event alone and
the snapshot stays in the map. -/
theorem periodic_drain_amount_at_failing_input :
    ((RaySync.init.Update (.change event_A)).Update
        (.data snapshot_A)).resources_buffer_proto_.length = 1 ∧
    ((RaySync.init.Update (.change event_A)).Update
        (.data snapshot_A)).resources_buffer_.length = 1 ∧
    ((RaySync.init.Update (.change event_A)).Update (.data snapshot_A)).periodic 2 =
      some ({ resources_buffer_proto_ := [],
              resources_buffer_ := [("A", clear_heavy snapshot_A)] },
            [.broadcaster_SendBroadcast [.change event_A]]) := by
  decide

/-- Claim C7 (draining over several ticks): from a state with an empty batch
and `n` pending snapshots, with batch limit `k ≥ 1` and nothing but ticks,
the first tick sends the first `min k n` pending snapshots and keeps the
other `n - min k n`; after `⌈n / k⌉` ticks the map is empty, that many
batches were sent, and the batches laid end to end are the pending snapshots,
each one once. -/
theorem multi_cycle_drain (k : Nat) (hk : 1 ≤ k) (self : RaySync)
    (hempty : self.resources_buffer_proto_ = []) :
    (∃ st1, self.periodic k =
        some (st1, [.broadcaster_SendBroadcast
          ((self.resources_buffer_.take (min k self.resources_buffer_.length)).map as_data)]) ∧
      ((self.resources_buffer_.take (min k self.resources_buffer_.length)).map as_data).length =
        min k self.resources_buffer_.length ∧
      st1.resources_buffer_ =
        self.resources_buffer_.drop (min k self.resources_buffer_.length) ∧
      st1.resources_buffer_.length =
        self.resources_buffer_.length - min k self.resources_buffer_.length) ∧
    ∃ st calls,
      self.run k (List.replicate ((self.resources_buffer_.length + k - 1) / k) Op.tick) =
        some (st, calls) ∧
      st.resources_buffer_ = [] ∧
      (sent_batches calls).length = (self.resources_buffer_.length + k - 1) / k ∧
      (sent_batches calls).flatten = self.resources_buffer_.map as_data := by
  constructor
  · have hstep := periodic_eq k self
    have hd : self.drain_count k = min k self.resources_buffer_.length := by
      simp [RaySync.drain_count, hempty]
    rw [hd, hempty, List.nil_append] at hstep
    refine ⟨_, hstep, ?_, rfl, ?_⟩
    · rw [List.length_map, List.length_take]
      omega
    · rw [List.length_drop]
  · obtain ⟨st, calls, hrun, _, h2, h3, h4⟩ :=
      run_ticks k ((self.resources_buffer_.length + k - 1) / k) self hempty
    have hle := le_ceil_mul self.resources_buffer_.length k hk
    refine ⟨st, calls, hrun, ?_, h4, ?_⟩
    · rw [h2, List.drop_eq_nil_of_le hle]
    · rw [h3, List.take_of_length_le hle]

/-- Claim C7 at a concrete input: batch limit 2 and the snapshots of `A`,
`B`, `C` pending, drained by two ticks. -/
theorem multi_cycle_drain_witness :
    1 ≤ 2 ∧
    (((RaySync.init.Update (.data snapshot_A)).Update (.data snapshot_B)).Update
        (.data snapshot_C)).resources_buffer_proto_ = [] ∧
    (((RaySync.init.Update (.data snapshot_A)).Update (.data snapshot_B)).Update
        (.data snapshot_C)).resources_buffer_.length = 3 ∧
    ∃ st calls,
      (((RaySync.init.Update (.data snapshot_A)).Update (.data snapshot_B)).Update
          (.data snapshot_C)).run 2 (List.replicate ((3 + 2 - 1) / 2) Op.tick) =
        some (st, calls) ∧
      st.resources_buffer_ = [] ∧
      (sent_batches calls).length = (3 + 2 - 1) / 2 ∧
      (sent_batches calls).flatten =
        [.data (clear_heavy snapshot_A), .data (clear_heavy snapshot_B),
          .data (clear_heavy snapshot_C)] :=
  ⟨by decide, by decide, by decide,
    (multi_cycle_drain 2 (by decide)
      (((RaySync.init.Update (.data snapshot_A)).Update (.data snapshot_B)).Update
        (.data snapshot_C)) (by decide)).2⟩

/-! ## Reachable states -/

/-- Claim C3 (field stripping): whatever sequence of `Update`, `AddNode`,
`RemoveNode` and ticks is run from the empty initial state, the run
completes, and every data entry of every batch handed to `SendBroadcast` has
empty `resource_load`, `resource_load_by_shape` and
`resources_normal_task`. -/
theorem sent_snapshots_are_stripped (k : Nat) (ops : List Op) :
    ∃ st calls, RaySync.init.run k ops = some (st, calls) ∧
      ∀ b ∈ sent_batches calls, ∀ d, ResourceUpdate.data d ∈ b →
        d.resource_load = [] ∧ d.resource_load_by_shape = none ∧
          d.resources_normal_task = [] := by
  obtain ⟨st, calls, hrun, _, _, _, h4⟩ :=
    run_entries (fun e => stripped e.2) k ops RaySync.init
      (fun d _ _ => ⟨rfl, rfl, rfl⟩)
      (fun d hd => by cases hd)
      (fun e he => by cases he)
  refine ⟨st, calls, hrun, ?_⟩
  intro b hb d hd
  obtain ⟨_, hP⟩ := h4 b hb d hd
  exact hP

/-- Claim C6, as stated, fails: with batch limit 1, two `Update` calls with
a change event and then a tick send a batch of two entries. -/
theorem sent_batch_exceeds_limit :
    ∃ st calls,
      RaySync.init.run 1 [.Update (.change event_A), .Update (.change event_A), .tick] =
        some (st, calls) ∧
      ∃ b ∈ sent_batches calls, ¬ b.length ≤ 1 :=
  ⟨{}, [.broadcaster_SendBroadcast [.change event_A, .change event_A]], by decide,
    [.change event_A, .change event_A], by decide, by decide⟩

/-- Claim C6, amended: after any sequence of operations from the empty
initial state, the outgoing batch holds exactly the `q` change events queued
by `Update` since the last tick, and the batch the next tick hands to
`SendBroadcast` has at most `max k q` entries, `k` being the batch limit; so
it has at most `k` entries whenever `q ≤ k`. -/
theorem sent_batch_bound (k : Nat) (ops : List Op) :
    ∃ st calls, RaySync.init.run k ops = some (st, calls) ∧
      st.resources_buffer_proto_.length = events_since_tick 0 ops ∧
      ∃ st1 batch, st.periodic k = some (st1, [.broadcaster_SendBroadcast batch]) ∧
        batch.length ≤ max k (events_since_tick 0 ops) ∧
        (events_since_tick 0 ops ≤ k → batch.length ≤ k) := by
  obtain ⟨st, calls, hrun, _, _, h3, _⟩ :=
    run_entries (fun _ => True) k ops RaySync.init
      (fun _ _ _ => trivial)
      (fun d hd => by cases hd)
      (fun _ _ => trivial)
  have hq : st.resources_buffer_proto_.length = events_since_tick 0 ops := h3
  have hlen : (st.resources_buffer_proto_ ++
      (st.resources_buffer_.take (st.drain_count k)).map as_data).length ≤
      max k (events_since_tick 0 ops) := by
    rw [List.length_append, List.length_map, List.length_take, RaySync.drain_count, hq]
    omega
  refine ⟨st, calls, hrun, hq, _, _, periodic_eq k st, hlen, ?_⟩
  intro hle
  rw [Nat.max_eq_left hle] at hlen
  exact hlen

/-- Claim C8 (removal purge): run any operations, then `Update` with a
snapshot of node `N`, then `RemoveNode(N)`, then any operations that contain
no `Update` with a snapshot of `N`.  The run completes, the map has no entry
under `N`, and the batch the next tick sends has no data entry whose node id
is `N`. -/
theorem removal_purge (k : Nat) (pre post : List Op) (s : ResourcesData)
    (node_info : GcsNodeInfo) (_hnode : s.node_id = node_info.node_id)
    (hpost : ∀ d, Op.Update (.data d) ∈ post → d.node_id ≠ node_info.node_id) :
    ∃ st calls,
      RaySync.init.run k (pre ++ [.Update (.data s), .RemoveNode node_info] ++ post) =
        some (st, calls) ∧
      st.resources_buffer_.find node_info.node_id = none ∧
      (∀ e ∈ st.resources_buffer_, e.1 ≠ node_info.node_id) ∧
      ∃ st1 batch, st.periodic k = some (st1, [.broadcaster_SendBroadcast batch]) ∧
        ∀ d, ResourceUpdate.data d ∈ batch → d.node_id ≠ node_info.node_id := by
  -- every stored entry sits under the node id it carries
  obtain ⟨sa, ca, hruna, hba, hka, _, _⟩ :=
    run_entries (fun e => e.1 = e.2.node_id) k (pre ++ [.Update (.data s)]) RaySync.init
      (fun _ _ _ => rfl)
      (fun d hd => by cases hd)
      (fun e he => by cases he)
  -- after the removal no entry sits under `N`, and that stays so along `post`
  obtain ⟨st, cb, hrunb, hbb, hkb, _, _⟩ :=
    run_entries (fun e => e.1 = e.2.node_id ∧ e.1 ≠ node_info.node_id) k post
      (sa.RemoveNode node_info).1
      (fun d hd _ => ⟨rfl, hpost d hd⟩)
      hba
      (fun e he => by
        simp only [RaySync.RemoveNode, mem_erase] at he
        exact ⟨hka e he.1, he.2⟩)
  have hrem : sa.run k [.RemoveNode node_info] =
      some ((sa.RemoveNode node_info).1, (sa.RemoveNode node_info).2 ++ []) :=
    run_cons_of_step k sa _ _ _ [] _ [] rfl rfl
  have hrun1 := run_append k _ _ _ _ _ _ _ hruna hrem
  have hrun2 := run_append k _ _ _ _ _ _ _ hrun1 hrunb
  have hops : pre ++ [Op.Update (.data s), Op.RemoveNode node_info] ++ post =
      pre ++ [Op.Update (.data s)] ++ [Op.RemoveNode node_info] ++ post := by
    simp
  rw [← hops] at hrun2
  have hno : ∀ e ∈ st.resources_buffer_, e.1 ≠ node_info.node_id := fun e he => (hkb e he).2
  refine ⟨st, _, hrun2, find_eq_none _ _ hno, hno, _, _, periodic_eq k st, ?_⟩
  intro d hd
  rcases List.mem_append.1 hd with hd | hd
  · exact absurd hd (hbb d)
  · obtain ⟨e, he, hed⟩ := List.mem_map.1 hd
    simp only [as_data, ResourceUpdate.data.injEq] at hed
    have hP := hkb e (List.mem_of_mem_take he)
    rw [← hed, ← hP.1]
    exact hP.2

/-- Claim C8 at a concrete input: node `A` is updated and removed while `B`
and `C` report. -/
theorem removal_purge_witness :
    snapshot_A.node_id = node_A.node_id ∧
    ∃ st calls,
      RaySync.init.run 2
          ([.Update (.data snapshot_B)] ++ [.Update (.data snapshot_A), .RemoveNode node_A] ++
            [.Update (.change event_A), .Update (.data snapshot_C)]) = some (st, calls) ∧
      st.resources_buffer_.find node_A.node_id = none ∧
      (∀ e ∈ st.resources_buffer_, e.1 ≠ node_A.node_id) ∧
      ∃ st1 batch, st.periodic 2 = some (st1, [.broadcaster_SendBroadcast batch]) ∧
        ∀ d, ResourceUpdate.data d ∈ batch → d.node_id ≠ node_A.node_id :=
  ⟨by decide,
    removal_purge 2 [.Update (.data snapshot_B)]
      [.Update (.change event_A), .Update (.data snapshot_C)] snapshot_A node_A (by decide)
      (by
        intro d hd
        simp only [List.mem_cons, Op.Update.injEq, UpdateArg.data.injEq, List.mem_singleton,
          reduceCtorEq, false_or, List.not_mem_nil, or_false] at hd
        rw [hd]
        decide)⟩

/-! ## Heartbeat, loop count and buffer invariants -/

theorem drain_loop_rounds_eq (max_batch size cnt : Nat) (ptr : ResourcesBuffer)
    (h : size ≤ cnt + ptr.length) :
    drain_loop_rounds max_batch size cnt ptr = min max_batch size - cnt := by
  induction ptr generalizing cnt with
  | nil =>
    simp only [List.length_nil, Nat.add_zero] at h
    simp only [drain_loop_rounds]
    omega
  | cons e rest ih =>
    by_cases hc : cnt < max_batch ∧ cnt < size
    · have h1 : size ≤ cnt + 1 + rest.length := by
        simp only [List.length_cons] at h
        omega
      rw [drain_loop_rounds, if_pos hc, ih (cnt + 1) h1]
      omega
    · rw [drain_loop_rounds, if_neg hc]
      omega

/-- Claim C11 (heartbeat): a tick makes exactly one call, a `SendBroadcast`,
in every state; on the state with an empty map and an empty batch the batch
sent is empty and both buffers are empty afterwards. -/
theorem periodic_heartbeat (k : Nat) (self : RaySync) :
    (∃ st batch, self.periodic k = some (st, [.broadcaster_SendBroadcast batch])) ∧
    ({ resources_buffer_proto_ := [], resources_buffer_ := [] } : RaySync).periodic k =
      some ({ resources_buffer_proto_ := [], resources_buffer_ := [] },
            [.broadcaster_SendBroadcast []]) := by
  refine ⟨⟨_, _, periodic_eq k self⟩, ?_⟩
  rw [periodic_eq]
  simp

/-- Claim C18 (loop count and bounds): started by the callback with limit
`k`, batch size `q` and map size `n`, the loop makes `min k n - q` rounds
(truncated at zero, that is `max 0 (min k n - q)`), never more than `n`; it
exits with a result, and the entries before the exit iterator are as many as
the rounds and are the ones swapped into the batch. -/
theorem drain_loop_round_count (k : Nat) (self : RaySync) :
    drain_loop_rounds k self.resources_buffer_.length self.resources_buffer_proto_.length
        self.resources_buffer_ =
      min k self.resources_buffer_.length - self.resources_buffer_proto_.length ∧
    ((drain_loop_rounds k self.resources_buffer_.length self.resources_buffer_proto_.length
        self.resources_buffer_ : Nat) : Int) =
      max 0 (((min k self.resources_buffer_.length : Nat) : Int) -
        ((self.resources_buffer_proto_.length : Nat) : Int)) ∧
    drain_loop_rounds k self.resources_buffer_.length self.resources_buffer_proto_.length
        self.resources_buffer_ ≤ self.resources_buffer_.length ∧
    ∃ erased ptr,
      drain_loop k self.resources_buffer_.length self.resources_buffer_proto_.length
          self.resources_buffer_ self.resources_buffer_proto_ =
        some (self.resources_buffer_proto_ ++ erased.map (fun e => ResourceUpdate.data e.2),
              ptr) ∧
      self.resources_buffer_ = erased ++ ptr ∧
      erased.length =
        drain_loop_rounds k self.resources_buffer_.length self.resources_buffer_proto_.length
          self.resources_buffer_ := by
  have hr := drain_loop_rounds_eq k self.resources_buffer_.length
    self.resources_buffer_proto_.length self.resources_buffer_ (Nat.le_add_left _ _)
  have hl := drain_loop_eq k self.resources_buffer_.length
    self.resources_buffer_proto_.length self.resources_buffer_ self.resources_buffer_proto_
    (Nat.le_add_left _ _)
  refine ⟨hr, ?_, ?_, _, _, hl, (List.take_append_drop _ _).symm, ?_⟩
  · rw [hr]
    omega
  · rw [hr]
    omega
  · rw [hr, List.length_take]
    omega

/-- Claim C16 (acceptance invariant): after any sequence of operations from
the empty initial state, every snapshot held in the map passes the filter of
`Update` in the form in which it is stored, which has the heavyweight fields
cleared. -/
theorem pending_snapshots_are_accepted (k : Nat) (ops : List Op) :
    ∃ st calls, RaySync.init.run k ops = some (st, calls) ∧
      ∀ e ∈ st.resources_buffer_,
        (e.2.should_global_gc = true ∨ e.2.resources_total.length > 0 ∨
          e.2.resources_available_changed = true ∨ e.2.resource_load_changed = true) ∧
        accepted e.2 = true ∧ clear_heavy e.2 = e.2 := by
  obtain ⟨st, calls, hrun, _, h2, _, _⟩ :=
    run_entries (fun e => accepted e.2 = true ∧ clear_heavy e.2 = e.2) k ops RaySync.init
      (fun d _ hacc => ⟨hacc, rfl⟩)
      (fun d hd => by cases hd)
      (fun e he => by cases he)
  refine ⟨st, calls, hrun, fun e he => ⟨?_, h2 e he⟩⟩
  have hacc := (h2 e he).1
  simp only [accepted, Bool.or_eq_true, decide_eq_true_eq] at hacc
  tauto

/-- Claim C19 (no snapshot lingers in the batch): after any sequence of
operations from the empty initial state, every entry of the outgoing batch
is a change event; the batch holds no data entry. -/
theorem batch_holds_only_changes (k : Nat) (ops : List Op) :
    ∃ st calls, RaySync.init.run k ops = some (st, calls) ∧
      (∀ u ∈ st.resources_buffer_proto_, ∃ c, u = ResourceUpdate.change c) ∧
      data_node_ids st.resources_buffer_proto_ = [] := by
  obtain ⟨st, calls, hrun, h1, _, _, _⟩ :=
    run_entries (fun _ => True) k ops RaySync.init
      (fun _ _ _ => trivial)
      (fun d hd => by cases hd)
      (fun _ _ => trivial)
  have hch : ∀ u ∈ st.resources_buffer_proto_, ∃ c, u = ResourceUpdate.change c := by
    intro u hu
    cases u with
    | change c => exact ⟨c, rfl⟩
    | data d => exact absurd hu (h1 d)
  refine ⟨st, calls, hrun, hch, ?_⟩
  rw [data_node_ids, List.filterMap_eq_nil_iff]
  intro u hu
  obtain ⟨c, rfl⟩ := hch u hu
  rfl

/-! ## Lifecycle and the place of the broadcast -/

/-- Claim C13 (stop lifecycle): `Stop` on a never started instance only stops
the poller: the service is not stopped, nothing is joined, the members stay
as they were.  After `Start`, `Stop`, `Stop` on a fresh instance the thread
has been joined exactly once.  In every state a second `Stop` joins nothing
and leaves the members as the first `Stop` left them. -/
theorem Stop_lifecycle (s : Lifecycle) :
    Lifecycle.init.Stop = (Lifecycle.init, [.poller_Stop]) ∧
    (∃ s1 c1, Lifecycle.init.Start = some (s1, c1) ∧
      s1.broadcast_thread_ = .running ∧
      s1.Stop.1.broadcast_thread_ = .joined ∧
      (c1 ++ s1.Stop.2 ++ s1.Stop.1.Stop.2).count .broadcast_thread_join = 1 ∧
      s1.Stop.2.count .broadcast_thread_join = 1 ∧
      s1.Stop.1.Stop.2.count .broadcast_thread_join = 0 ∧
      s1.Stop.1.Stop.1 = s1.Stop.1) ∧
    s.Stop.1.Stop.1 = s.Stop.1 ∧
    s.Stop.1.Stop.2.count .broadcast_thread_join = 0 ∧
    (s.Stop.2 ++ s.Stop.1.Stop.2).count .broadcast_thread_join ≤ 1 := by
  refine ⟨by decide, ⟨_, _, rfl, by decide, by decide, by decide, by decide, by decide,
    by decide⟩, ?_⟩
  obtain ⟨t, b, n⟩ := s
  cases t <;> simp [Lifecycle.Stop]

/-- Claim C14, evaluated at the failing input: with one snapshot pending, the
calls that the callback itself makes, in place, are the one `SendBroadcast`
with the drained batch; `Start` on a fresh instance spawns the broadcast
thread and registers the callback, and hands no work to that thread. -/
theorem periodic_sends_in_place :
    (RaySync.init.Update (.data snapshot_A)).periodic 2 =
      some (RaySync.init, [.broadcaster_SendBroadcast [.data (clear_heavy snapshot_A)]]) ∧
    Lifecycle.init.Start =
      some ({ broadcast_thread_ := .running, broadcast_service_stopped := false,
              ticker_callbacks := 1 },
            [.poller_Start, .thread_spawn, .ticker_RunFnPeriodically]) := by
  decide

/-! ## Removal and change events -/

theorem run_cons_inv (k : Nat) (self st : RaySync) (op : Op) (rest : List Op)
    (calls : List Call) (h : self.run k (op :: rest) = some (st, calls)) :
    ∃ s1 c1 c2, self.step k op = some (s1, c1) ∧ s1.run k rest = some (st, c2) ∧
      calls = c1 ++ c2 := by
  simp only [RaySync.run] at h
  cases hs : self.step k op with
  | none => simp [hs] at h
  | some r =>
    obtain ⟨s1, c1⟩ := r
    simp only [hs] at h
    cases hr : s1.run k rest with
    | none => simp [hr] at h
    | some r2 =>
      obtain ⟨s2, c2⟩ := r2
      simp only [hr, Option.some.injEq, Prod.mk.injEq] at h
      obtain ⟨rfl, rfl⟩ := h
      exact ⟨s1, c1, c2, rfl, hr, rfl⟩

theorem run_changes (Q : NodeResourceChange → Prop) (k : Nat) (ops : List Op)
    (self st : RaySync) (calls : List Call)
    (hops : ∀ c, Op.Update (.change c) ∈ ops → Q c)
    (hbatch : ∀ c, ResourceUpdate.change c ∈ self.resources_buffer_proto_ → Q c)
    (hrun : self.run k ops = some (st, calls)) :
    ∀ c, ResourceUpdate.change c ∈ st.resources_buffer_proto_ → Q c := by
  induction ops generalizing self calls with
  | nil =>
    simp only [RaySync.run, Option.some.injEq, Prod.mk.injEq] at hrun
    rw [← hrun.1]
    exact hbatch
  | cons op rest ih =>
    obtain ⟨s1, c1, c2, hstep, hrest, _⟩ := run_cons_inv k self st op rest calls hrun
    have hops1 : ∀ c, Op.Update (.change c) ∈ rest → Q c :=
      fun c hc => hops c (List.mem_cons_of_mem _ hc)
    refine ih s1 c2 hops1 ?_ hrest
    intro c hc
    cases op with
    | Update u =>
      simp only [RaySync.step, Option.some.injEq, Prod.mk.injEq] at hstep
      rw [← hstep.1] at hc
      cases u with
      | change c0 =>
        simp only [RaySync.Update, List.mem_append, List.mem_singleton,
          ResourceUpdate.change.injEq] at hc
        rcases hc with hc | hc
        · exact hbatch c hc
        · rw [hc]
          exact hops c0 (List.mem_cons_self _ _)
      | data d =>
        by_cases hacc : accepted d = true
        · simp only [RaySync.Update, hacc, if_true] at hc
          exact hbatch c hc
        · simp only [RaySync.Update, hacc] at hc
          exact hbatch c hc
    | AddNode n =>
      simp only [RaySync.step, RaySync.AddNode, Option.some.injEq, Prod.mk.injEq] at hstep
      rw [← hstep.1] at hc
      exact hbatch c hc
    | RemoveNode n =>
      simp only [RaySync.step, RaySync.RemoveNode, Option.some.injEq, Prod.mk.injEq] at hstep
      rw [← hstep.1] at hc
      exact hbatch c hc
    | tick =>
      simp only [RaySync.step, periodic_eq, Option.some.injEq, Prod.mk.injEq] at hstep
      rw [← hstep.1] at hc
      cases hc

/-- Claim C12, as stated, fails: with a change event of node `A` queued,
`RemoveNode` for `A` and then a tick send a batch that still holds the change
event of `A`. -/
theorem removed_node_event_is_sent :
    ∃ st calls,
      RaySync.init.run 2 [.Update (.change event_A), .RemoveNode node_A, .tick] =
        some (st, calls) ∧
      ∃ b ∈ sent_batches calls, ∃ c, ResourceUpdate.change c ∈ b ∧ c.node_id = node_A.node_id :=
  ⟨{}, [.broadcaster_HandleNodeRemoved node_A, .poller_HandleNodeRemoved node_A,
      .broadcaster_SendBroadcast [.change event_A]], by decide,
    [.change event_A], by decide, event_A, by decide, by decide⟩

/-- Claim C12, amended: run any operations, then `RemoveNode(N)`, then any
operations without an `Update` for `N` of either kind.  `RemoveNode` leaves
the outgoing batch as it is; the batch the next tick sends has no data entry
whose node id is `N`, and its change events of `N` are among those that were
queued when `RemoveNode` was called. -/
theorem removal_leaves_events (k : Nat) (pre post : List Op) (node_info : GcsNodeInfo)
    (hpost : ∀ u, Op.Update u ∈ post → u.node_id ≠ node_info.node_id) :
    ∃ sr cr st calls,
      RaySync.init.run k pre = some (sr, cr) ∧
      RaySync.init.run k (pre ++ [.RemoveNode node_info] ++ post) = some (st, calls) ∧
      (sr.RemoveNode node_info).1.resources_buffer_proto_ = sr.resources_buffer_proto_ ∧
      ∃ st1 batch, st.periodic k = some (st1, [.broadcaster_SendBroadcast batch]) ∧
        (∀ d, ResourceUpdate.data d ∈ batch → d.node_id ≠ node_info.node_id) ∧
        (∀ c, ResourceUpdate.change c ∈ batch → c.node_id = node_info.node_id →
          ResourceUpdate.change c ∈ sr.resources_buffer_proto_) := by
  obtain ⟨sr, cr, hrunr, hbr, hkr, _, _⟩ :=
    run_entries (fun e => e.1 = e.2.node_id) k pre RaySync.init
      (fun _ _ _ => rfl)
      (fun d hd => by cases hd)
      (fun e he => by cases he)
  obtain ⟨st, cb, hrunb, hbb, hkb, _, _⟩ :=
    run_entries (fun e => e.1 = e.2.node_id ∧ e.1 ≠ node_info.node_id) k post
      (sr.RemoveNode node_info).1
      (fun d hd _ => ⟨rfl, hpost (.data d) hd⟩)
      hbr
      (fun e he => by
        simp only [RaySync.RemoveNode, mem_erase] at he
        exact ⟨hkr e he.1, he.2⟩)
  have hch := run_changes
    (fun c => c.node_id = node_info.node_id →
      ResourceUpdate.change c ∈ sr.resources_buffer_proto_)
    k post (sr.RemoveNode node_info).1 st cb
    (fun c hc hN => absurd hN (hpost (.change c) hc))
    (fun c hc _ => hc)
    hrunb
  have hrem : sr.run k [.RemoveNode node_info] =
      some ((sr.RemoveNode node_info).1, (sr.RemoveNode node_info).2 ++ []) :=
    run_cons_of_step k sr _ _ _ [] _ [] rfl rfl
  have hrun1 := run_append k _ _ _ _ _ _ _ hrunr hrem
  have hrun2 := run_append k _ _ _ _ _ _ _ hrun1 hrunb
  refine ⟨sr, cr, st, _, hrunr, hrun2, rfl, _, _, periodic_eq k st, ?_, ?_⟩
  · intro d hd
    rcases List.mem_append.1 hd with hd | hd
    · exact absurd hd (hbb d)
    · obtain ⟨e, he, hed⟩ := List.mem_map.1 hd
      simp only [as_data, ResourceUpdate.data.injEq] at hed
      have hP := hkb e (List.mem_of_mem_take he)
      rw [← hed, ← hP.1]
      exact hP.2
  · intro c hc hN
    rcases List.mem_append.1 hc with hc | hc
    · exact hch c hc hN
    · obtain ⟨e, _, hed⟩ := List.mem_map.1 hc
      simp [as_data] at hed

/-- Claim C12 at a concrete input: node `A` has an event queued and a
snapshot pending when it is removed; `B` reports afterwards. -/
theorem removal_leaves_events_witness :
    ∃ sr cr st calls,
      RaySync.init.run 2 [.Update (.change event_A), .Update (.data snapshot_A)] =
        some (sr, cr) ∧
      RaySync.init.run 2
          ([.Update (.change event_A), .Update (.data snapshot_A)] ++ [.RemoveNode node_A] ++
            [.Update (.data snapshot_B)]) = some (st, calls) ∧
      (sr.RemoveNode node_A).1.resources_buffer_proto_ = sr.resources_buffer_proto_ ∧
      ∃ st1 batch, st.periodic 2 = some (st1, [.broadcaster_SendBroadcast batch]) ∧
        (∀ d, ResourceUpdate.data d ∈ batch → d.node_id ≠ node_A.node_id) ∧
        (∀ c, ResourceUpdate.change c ∈ batch → c.node_id = node_A.node_id →
          ResourceUpdate.change c ∈ sr.resources_buffer_proto_) :=
  removal_leaves_events 2 [.Update (.change event_A), .Update (.data snapshot_A)]
    [.Update (.data snapshot_B)] node_A
    (by
      intro u hu
      simp only [List.mem_singleton, Op.Update.injEq] at hu
      rw [hu]
      decide)

/-! ## Conservation and uniqueness of pending snapshots -/

theorem find_eq_some_iff (m : ResourcesBuffer) (key : String) (v : ResourcesData)
    (hnd : (m.map Prod.fst).Nodup) : m.find key = some v ↔ (key, v) ∈ m := by
  induction m with
  | nil => simp [ResourcesBuffer.find]
  | cons x rest ih =>
    obtain ⟨k, u⟩ := x
    simp only [List.map_cons, List.nodup_cons, List.mem_map, Prod.exists, exists_and_right,
      exists_eq_right, not_exists] at hnd
    by_cases hk : k = key
    · subst hk
      simp only [ResourcesBuffer.find, if_true, Option.some.injEq, List.mem_cons,
        Prod.mk.injEq, true_and]
      constructor
      · intro h; exact Or.inl h.symm
      · intro h
        rcases h with h | h
        · exact h.symm
        · exact absurd h (hnd.1 v)
    · simp only [ResourcesBuffer.find, hk, if_false, List.mem_cons, Prod.mk.injEq]
      rw [ih hnd.2]
      constructor
      · intro h; exact Or.inr h
      · intro h
        rcases h with h | h
        · exact absurd h.1.symm hk
        · exact h

theorem keys_index_swap (m : ResourcesBuffer) (key : String) (v : ResourcesData) :
    (m.index_swap key v).map Prod.fst =
      if key ∈ m.map Prod.fst then m.map Prod.fst else m.map Prod.fst ++ [key] := by
  induction m with
  | nil => simp [ResourcesBuffer.index_swap]
  | cons x rest ih =>
    obtain ⟨k, u⟩ := x
    by_cases hk : k = key
    · simp [ResourcesBuffer.index_swap, hk]
    · have hk1 : ¬ key = k := fun h => hk h.symm
      simp only [ResourcesBuffer.index_swap, hk, if_false, List.map_cons, ih, List.mem_cons,
        hk1, false_or]
      split_ifs <;> rfl

theorem nodup_index_swap (m : ResourcesBuffer) (key : String) (v : ResourcesData)
    (hnd : (m.map Prod.fst).Nodup) : ((m.index_swap key v).map Prod.fst).Nodup := by
  rw [keys_index_swap]
  split_ifs with h
  · exact hnd
  · rw [List.nodup_append]
    refine ⟨hnd, List.nodup_singleton _, ?_⟩
    intro a ha hb
    rw [List.mem_singleton] at hb
    exact h (hb ▸ ha)

theorem data_node_ids_append (a b : ResourceUsageBroadcastData) :
    data_node_ids (a ++ b) = data_node_ids a ++ data_node_ids b := by
  simp [data_node_ids, List.filterMap_append]

theorem data_node_ids_only_changes (batch : ResourceUsageBroadcastData)
    (h : only_changes batch) : data_node_ids batch = [] := by
  rw [data_node_ids, List.filterMap_eq_nil_iff]
  intro u hu
  cases u with
  | change c => rfl
  | data d => exact absurd hu (h d)

theorem data_node_ids_as_data (l : ResourcesBuffer) (h : ∀ e ∈ l, e.1 = e.2.node_id) :
    data_node_ids (l.map as_data) = l.map Prod.fst := by
  induction l with
  | nil => rfl
  | cons x rest ih =>
    have hx := h x (List.mem_cons_self _ _)
    have hr := ih (fun e he => h e (List.mem_cons_of_mem _ he))
    simp only [data_node_ids] at hr
    simp [data_node_ids, as_data, hx, hr]

/-- Claim C15 (drain conservation): on a map without repeated keys, a tick
splits the map into the drained entries and the entries that stay.  The
drained ones are appended to the batch with the content they had; a key is
bound in the map before the tick exactly when it is bound, to the same
content, either among the drained entries or in the map after the tick, and
never in both. -/
theorem periodic_conserves (k : Nat) (self : RaySync)
    (hwf : (self.resources_buffer_.map Prod.fst).Nodup) :
    ∃ drained st,
      self.periodic k =
        some (st, [.broadcaster_SendBroadcast
          (self.resources_buffer_proto_ ++ drained.map (fun e => ResourceUpdate.data e.2))]) ∧
      self.resources_buffer_ = drained ++ st.resources_buffer_ ∧
      self.resources_buffer_.length = drained.length + st.resources_buffer_.length ∧
      (∀ key v, self.resources_buffer_.find key = some v ↔
        ((key, v) ∈ drained ∨ st.resources_buffer_.find key = some v)) ∧
      (∀ e ∈ drained, st.resources_buffer_.find e.1 = none) := by
  have hsplit : self.resources_buffer_ =
      self.resources_buffer_.take (self.drain_count k) ++
        self.resources_buffer_.drop (self.drain_count k) :=
    (List.take_append_drop _ _).symm
  have hkeys : (self.resources_buffer_.take (self.drain_count k)).map Prod.fst ++
      (self.resources_buffer_.drop (self.drain_count k)).map Prod.fst =
      self.resources_buffer_.map Prod.fst := by
    rw [← List.map_append, ← hsplit]
  have hnd2 := hwf
  rw [← hkeys, List.nodup_append] at hnd2
  obtain ⟨_, hndr, hdisj⟩ := hnd2
  refine ⟨self.resources_buffer_.take (self.drain_count k), _, periodic_eq k self, hsplit,
    ?_, ?_, ?_⟩
  · conv_lhs => rw [hsplit]
    rw [List.length_append]
  · intro key v
    rw [find_eq_some_iff _ _ _ hwf, find_eq_some_iff _ _ _ hndr]
    conv_lhs => rw [hsplit]
    rw [List.mem_append]
  · intro e he
    apply find_eq_none
    intro e1 he1 heq
    exact hdisj (List.mem_map_of_mem Prod.fst he) (heq ▸ List.mem_map_of_mem Prod.fst he1)

/-- Claim C15 at a concrete input: three snapshots pending, batch limit 2. -/
theorem periodic_conserves_witness :
    ((((RaySync.init.Update (.data snapshot_A)).Update (.data snapshot_B)).Update
        (.data snapshot_C)).resources_buffer_.map Prod.fst).Nodup ∧
    ∃ drained st,
      (((RaySync.init.Update (.data snapshot_A)).Update (.data snapshot_B)).Update
          (.data snapshot_C)).periodic 2 =
        some (st, [.broadcaster_SendBroadcast
          ((((RaySync.init.Update (.data snapshot_A)).Update (.data snapshot_B)).Update
              (.data snapshot_C)).resources_buffer_proto_ ++
            drained.map (fun e => ResourceUpdate.data e.2))]) ∧
      (((RaySync.init.Update (.data snapshot_A)).Update (.data snapshot_B)).Update
          (.data snapshot_C)).resources_buffer_ = drained ++ st.resources_buffer_ ∧
      (((RaySync.init.Update (.data snapshot_A)).Update (.data snapshot_B)).Update
          (.data snapshot_C)).resources_buffer_.length =
        drained.length + st.resources_buffer_.length ∧
      (∀ key v,
        (((RaySync.init.Update (.data snapshot_A)).Update (.data snapshot_B)).Update
            (.data snapshot_C)).resources_buffer_.find key = some v ↔
          ((key, v) ∈ drained ∨ st.resources_buffer_.find key = some v)) ∧
      (∀ e ∈ drained, st.resources_buffer_.find e.1 = none) :=
  ⟨by decide,
    periodic_conserves 2
      (((RaySync.init.Update (.data snapshot_A)).Update (.data snapshot_B)).Update
        (.data snapshot_C)) (by decide)⟩

theorem step_well_formed (k : Nat) (self : RaySync) (op : Op) (hwf : self.well_formed) :
    ∃ s1 c1, self.step k op = some (s1, c1) ∧ s1.well_formed ∧
      ∀ b ∈ sent_batches c1, (data_node_ids b).Nodup := by
  obtain ⟨hb, hk, hnd⟩ := hwf
  cases op with
  | Update u =>
    refine ⟨self.Update u, [], rfl, ?_, by simp [sent_batches]⟩
    cases u with
    | change c =>
      refine ⟨?_, hk, hnd⟩
      intro d hd
      simp only [RaySync.Update, List.mem_append, List.mem_singleton] at hd
      rcases hd with hd | hd
      · exact hb d hd
      · cases hd
    | data d =>
      by_cases hacc : accepted d = true
      · simp only [RaySync.Update, hacc, if_true]
        refine ⟨hb, ?_, nodup_index_swap _ _ _ hnd⟩
        intro e he
        rcases mem_index_swap _ _ _ _ he with h | h
        · exact hk e h
        · rw [h]
      · simp only [RaySync.Update, hacc]
        exact ⟨hb, hk, hnd⟩
  | AddNode n =>
    exact ⟨self, _, rfl, ⟨hb, hk, hnd⟩, by simp [sent_batches]⟩
  | RemoveNode n =>
    refine ⟨(self.RemoveNode n).1, _, rfl, ⟨hb, ?_, ?_⟩, by simp [sent_batches]⟩
    · intro e he
      simp only [RaySync.RemoveNode, mem_erase] at he
      exact hk e he.1
    · exact hnd.sublist (List.Sublist.map _ (List.filter_sublist _))
  | tick =>
    refine ⟨_, _, periodic_eq k self, ⟨?_, ?_, ?_⟩, ?_⟩
    · intro d hd
      cases hd
    · exact fun e he => hk e (List.mem_of_mem_drop he)
    · exact hnd.sublist (List.Sublist.map _ (List.drop_sublist _ _))
    · intro b hb1
      simp only [sent_batches, List.filterMap_cons, List.filterMap_nil,
        List.mem_singleton] at hb1
      rw [hb1, data_node_ids_append, data_node_ids_only_changes _ hb, List.nil_append,
        data_node_ids_as_data _ (fun e he => hk e (List.mem_of_mem_take he))]
      exact hnd.sublist (List.Sublist.map _ (List.take_sublist _ _))

theorem run_well_formed (k : Nat) (ops : List Op) (self : RaySync) (hwf : self.well_formed) :
    ∃ st calls, self.run k ops = some (st, calls) ∧ st.well_formed ∧
      ∀ b ∈ sent_batches calls, (data_node_ids b).Nodup := by
  induction ops generalizing self with
  | nil => exact ⟨self, [], rfl, hwf, by simp [sent_batches]⟩
  | cons op rest ih =>
    obtain ⟨s1, c1, hstep, hwf1, hs1⟩ := step_well_formed k self op hwf
    obtain ⟨st, c2, hrun, hwf2, hs2⟩ := ih s1 hwf1
    refine ⟨st, c1 ++ c2, run_cons_of_step k self s1 st op rest c1 c2 hstep hrun, hwf2, ?_⟩
    intro b hb
    rw [sent_batches_append] at hb
    rcases List.mem_append.1 hb with hb | hb
    · exact hs1 b hb
    · exact hs2 b hb

/-- Claim C17 (one snapshot per node): after any sequence of operations from
the empty initial state, every map entry is stored under the node id its
snapshot carries, the snapshots in the map carry pairwise different node
ids, and in every batch that was sent the data entries carry pairwise
different node ids. -/
theorem one_snapshot_per_node (k : Nat) (ops : List Op) :
    ∃ st calls, RaySync.init.run k ops = some (st, calls) ∧
      (∀ e ∈ st.resources_buffer_, e.1 = e.2.node_id) ∧
      (st.resources_buffer_.map (fun e => e.2.node_id)).Nodup ∧
      ∀ b ∈ sent_batches calls, (data_node_ids b).Nodup := by
  have hinit : RaySync.init.well_formed := by
    refine ⟨?_, ?_, List.nodup_nil⟩
    · intro d hd
      cases hd
    · intro e he
      cases he
  obtain ⟨st, calls, hrun, ⟨_, hk, hnd⟩, hs⟩ := run_well_formed k ops RaySync.init hinit
  refine ⟨st, calls, hrun, hk, ?_, hs⟩
  have hmap : st.resources_buffer_.map (fun e => e.2.node_id) =
      st.resources_buffer_.map Prod.fst :=
    List.map_congr_left (fun e he => (hk e he).symm)
  rw [hmap]
  exact hnd

end ray.sync
